import Mathlib

/-!
Verification development for the Perceiver forward-computation engine
(`perceiver_pytorch/perceiver_pytorch.py`).

The development has three views of the program, each a shallow embedding of
the corresponding part of the source:

* an *allocation model* of `Perceiver.__init__`'s layer-building loop and of
  the `cache_fn` memoization helper, in which every constructed
  `Attention`/`FeedForward` instance is represented by a fresh natural-number
  identity (two positions hold the same instance iff they hold the same id);

* a *constructor-validity model* of `Perceiver.__init__`, recording exactly
  which parameter combinations make construction fail (the constructor itself
  performs no validation; the only failures come from the tensor runtime
  rejecting a negative dimension, and from `nn.Dropout` rejecting a
  probability outside `[0, 1]`);

* a *numeric model* of the forward pass over the reals: `fourier_encode`,
  `LayerNorm`, `Linear`, `GEGLU`/`FeedForward`, multi-head scaled-dot-product
  `Attention` with optional mask and optional rotary embedding, `PreNorm`,
  and the `Perceiver.forward` orchestration (residual layer stack, mean
  pooling, classification head).  Machine floats are modelled by `ℝ`;
  dropout is modelled in evaluation mode (identity), matching the spec's
  "only active in training mode".
-/

/- ————————————————————————————————————————————————————————————————————————
   Part 1.  Allocation model of `cache_fn` and the layer-building loop.

   `cache_fn(f)` wraps `f` with a single-slot cache: a call with
   `_cache=False` invokes `f` directly and leaves the cache untouched; a call
   with `_cache=True` returns the cached instance if one exists and otherwise
   invokes `f`, stores the result, and returns it.  `Perceiver.__init__`
   wraps the four factories (`get_cross_attn`, `get_cross_ff`,
   `get_latent_attn`, `get_latent_ff`) with `cache_fn` and then, for depth
   index `i`, calls them with `_cache = (i > 0 and weight_tie_layers)`.
   Within depth index `i` the call order is: `self_per_cross_attn` repetitions
   of (latent attention, latent feed-forward), then cross attention, then
   cross feed-forward (the inner `self_attns` loop runs before the
   `self.layers.append(...)` argument list is evaluated).

   Instances are identified by allocation order: invoking a factory's
   underlying constructor hands out the next fresh id.  Identity of ids is
   identity of instances (mutating parameters through one alias is observable
   through every other alias of the same id).
   ———————————————————————————————————————————————————————————————————————— -/

/-- State of the four single-slot caches installed by `cache_fn`, together
with the fresh-allocation counter.  `cCA/cCF/cLA/cLF` are the caches of
`get_cross_attn`, `get_cross_ff`, `get_latent_attn`, `get_latent_ff`. -/
structure BuildSt where
  fresh : ℕ
  cCA : Option ℕ
  cCF : Option ℕ
  cLA : Option ℕ
  cLF : Option ℕ
deriving DecidableEq, Repr

/-- One call to the `cache_fn`-wrapped `get_cross_attn` factory. -/
def callCA (useCache : Bool) (s : BuildSt) : ℕ × BuildSt :=
  if useCache then
    match s.cCA with
    | some c => (c, s)
    | none => (s.fresh, { s with fresh := s.fresh + 1, cCA := some s.fresh })
  else (s.fresh, { s with fresh := s.fresh + 1 })

/-- One call to the `cache_fn`-wrapped `get_cross_ff` factory. -/
def callCF (useCache : Bool) (s : BuildSt) : ℕ × BuildSt :=
  if useCache then
    match s.cCF with
    | some c => (c, s)
    | none => (s.fresh, { s with fresh := s.fresh + 1, cCF := some s.fresh })
  else (s.fresh, { s with fresh := s.fresh + 1 })

/-- One call to the `cache_fn`-wrapped `get_latent_attn` factory. -/
def callLA (useCache : Bool) (s : BuildSt) : ℕ × BuildSt :=
  if useCache then
    match s.cLA with
    | some c => (c, s)
    | none => (s.fresh, { s with fresh := s.fresh + 1, cLA := some s.fresh })
  else (s.fresh, { s with fresh := s.fresh + 1 })

/-- One call to the `cache_fn`-wrapped `get_latent_ff` factory. -/
def callLF (useCache : Bool) (s : BuildSt) : ℕ × BuildSt :=
  if useCache then
    match s.cLF with
    | some c => (c, s)
    | none => (s.fresh, { s with fresh := s.fresh + 1, cLF := some s.fresh })
  else (s.fresh, { s with fresh := s.fresh + 1 })

/-- A depth group as stored in `self.layers`: the cross-attention instance,
the cross feed-forward instance, and the list of
(latent attention, latent feed-forward) self blocks. -/
abbrev LayerIds := ℕ × ℕ × List (ℕ × ℕ)

/-- The inner `for _ in range(self_per_cross_attn)` loop: each iteration
calls `get_latent_attn(**cache_args)` then `get_latent_ff(**cache_args)`. -/
def buildSelfBlocks (useCache : Bool) : ℕ → BuildSt → List (ℕ × ℕ) × BuildSt
  | 0, s => ([], s)
  | n + 1, s =>
    let r1 := callLA useCache s
    let r2 := callLF useCache r1.2
    let rest := buildSelfBlocks useCache n r2.2
    ((r1.1, r2.1) :: rest.1, rest.2)

/-- One iteration of the depth loop: build the self blocks, then call
`get_cross_attn(**cache_args)` and `get_cross_ff(**cache_args)`. -/
def buildLayer (useCache : Bool) (spc : ℕ) (s : BuildSt) : LayerIds × BuildSt :=
  let rb := buildSelfBlocks useCache spc s
  let rca := callCA useCache rb.2
  let rcf := callCF useCache rca.2
  ((rca.1, rcf.1, rb.1), rcf.2)

/-- The depth loop from index `i`, running `n` more iterations; each
iteration uses `should_cache = i > 0 and weight_tie_layers`. -/
def buildLayers (tie : Bool) (spc : ℕ) : ℕ → ℕ → BuildSt → List LayerIds
  | _, 0, _ => []
  | i, n + 1, s =>
    let shouldCache := decide (0 < i) && tie
    let r := buildLayer shouldCache spc s
    r.1 :: buildLayers tie spc (i + 1) n r.2

/-- All depth groups built by `Perceiver.__init__` with the given
`weight_tie_layers`, `depth` and `self_per_cross_attn`, starting from empty
caches and allocation counter 0. -/
def perceiverLayers (tie : Bool) (depth spc : ℕ) : List LayerIds :=
  buildLayers tie spc 0 depth ⟨0, none, none, none, none⟩

/-- Cross-attention instance at depth index `i`. -/
def caAt (ls : List LayerIds) (i : ℕ) : ℕ := (ls.getD i (0, 0, [])).1

/-- Cross feed-forward instance at depth index `i`. -/
def cfAt (ls : List LayerIds) (i : ℕ) : ℕ := (ls.getD i (0, 0, [])).2.1

/-- Latent self-attention instance at depth index `i`, self block `k`. -/
def laAt (ls : List LayerIds) (i k : ℕ) : ℕ :=
  (((ls.getD i (0, 0, [])).2.2).getD k (0, 0)).1

/-- Latent feed-forward instance at depth index `i`, self block `k`. -/
def lfAt (ls : List LayerIds) (i k : ℕ) : ℕ :=
  (((ls.getD i (0, 0, [])).2.2).getD k (0, 0)).2

/-- Self blocks produced by an uncached inner loop starting at fresh id `f`:
`(f, f+1), (f+2, f+3), …`. -/
def freshBlocks (f : ℕ) : ℕ → List (ℕ × ℕ)
  | 0 => []
  | n + 1 => (f, f + 1) :: freshBlocks (f + 2) n

/-- Closed form of the depth groups built with `weight_tie_layers=False`,
starting at fresh id `f`: every call allocates a fresh instance. -/
def untiedLayers (spc : ℕ) : ℕ → ℕ → List LayerIds
  | 0, _ => []
  | n + 1, f =>
    (f + 2 * spc, f + 2 * spc + 1, freshBlocks f spc) ::
      untiedLayers spc n (f + 2 * spc + 2)

/-- The depth group built at index 0 (never cached): fresh instances. -/
def layer0 (spc : ℕ) : LayerIds := (2 * spc, 2 * spc + 1, freshBlocks 0 spc)

/-- The depth group shared by every index `i ≥ 1` when
`weight_tie_layers=True`: its instances are allocated at depth index 1
(fresh counter `2*spc+2` after the uncached index-0 group). -/
def tiedTail (spc : ℕ) : LayerIds :=
  if spc = 0 then (2 * spc + 2, 2 * spc + 3, [])
  else (2 * spc + 4, 2 * spc + 5, List.replicate spc (2 * spc + 2, 2 * spc + 3))

/-- Caches needed by a steady tied iteration are populated: cross caches
always, latent caches whenever the inner loop is nonempty. -/
def FullCache (spc : ℕ) (s : BuildSt) : Prop :=
  s.cCA.isSome ∧ s.cCF.isSome ∧ (spc = 0 ∨ (s.cLA.isSome ∧ s.cLF.isSome))

/-- The depth group a fully-cached tied iteration reproduces. -/
def layerOfCache (spc : ℕ) (s : BuildSt) : LayerIds :=
  (s.cCA.getD 0, s.cCF.getD 0, List.replicate spc (s.cLA.getD 0, s.cLF.getD 0))

/- ————————————————————————————————————————————————————————————————————————
   Part 2.  Constructor-validity model of `Perceiver.__init__`.

   The constructor contains no explicit parameter validation.  The only way
   construction can fail is that the tensor runtime rejects a module whose
   declared dimension is negative (`torch.randn`, `nn.Linear`,
   `nn.LayerNorm` all raise on a negative size, and accept size 0), or that
   `nn.Dropout` rejects a probability outside `[0, 1]`.  The factories (and
   hence their `nn.Linear`/`nn.LayerNorm`/`nn.Dropout` allocations) run only
   when the depth loop body executes, i.e. when `depth ≥ 1`; repeated or
   cached factory calls allocate with the same dimensions, so they do not
   change validity.  Integer parameters are modelled by `ℤ` (Python ints),
   dropout probabilities by `ℚ`.
   ———————————————————————————————————————————————————————————————————————— -/

/-- The construction parameters of `Perceiver.__init__` that influence
whether construction succeeds. -/
structure InitCfg where
  numFreqBands : ℤ
  depth : ℤ
  inputChannels : ℤ
  inputAxis : ℤ
  numLatents : ℤ
  latentDim : ℤ
  crossHeads : ℤ
  latentHeads : ℤ
  crossDimHead : ℤ
  latentDimHead : ℤ
  numClasses : ℤ
  attnDropout : ℚ
  ffDropout : ℚ
  fourierEncodeData : Bool
deriving DecidableEq

/-- `fourier_channels = input_axis * (num_freq_bands * 2 + 1)` when Fourier
encoding is enabled, else 0. -/
def InitCfg.fourierChannels (c : InitCfg) : ℤ :=
  if c.fourierEncodeData then c.inputAxis * (2 * c.numFreqBands + 1) else 0

/-- `input_dim = fourier_channels + input_channels`. -/
def InitCfg.inputDim (c : InitCfg) : ℤ := c.fourierChannels + c.inputChannels

/-- `nn.Linear(i, o)` constructs iff both sizes are nonnegative. -/
def linearOk (i o : ℤ) : Bool := decide (0 ≤ i) && decide (0 ≤ o)

/-- `nn.LayerNorm(d)` constructs iff the normalized size is nonnegative. -/
def layerNormOk (d : ℤ) : Bool := decide (0 ≤ d)

/-- `nn.Dropout(p)` constructs iff `0 ≤ p ≤ 1`. -/
def dropoutOk (p : ℚ) : Bool := decide (0 ≤ p) && decide (p ≤ 1)

/-- `Attention.__init__`: `to_q = Linear(query_dim, inner_dim)`,
`to_kv = Linear(context_dim, inner_dim * 2)`,
`to_out = Sequential(Linear(inner_dim, query_dim), Dropout(p))`
with `inner_dim = dim_head * heads`. -/
def attentionInitOk (queryDim ctxDim heads dimHead : ℤ) (p : ℚ) : Bool :=
  linearOk queryDim (dimHead * heads) &&
  linearOk ctxDim (dimHead * heads * 2) &&
  linearOk (dimHead * heads) queryDim &&
  dropoutOk p

/-- `FeedForward.__init__` with `mult = 4`:
`Linear(dim, dim * 4 * 2)`, `Dropout(p)`, `Linear(dim * 4, dim)`. -/
def ffInitOk (d : ℤ) (p : ℚ) : Bool :=
  linearOk d (d * 4 * 2) && dropoutOk p && linearOk (d * 4) d

/-- The four factories invoked by the depth loop (each wrapped in `PreNorm`,
which adds `LayerNorm(latent_dim)` and, for the cross attention,
`LayerNorm(input_dim)` for the context). -/
def factoriesOk (c : InitCfg) : Bool :=
  (layerNormOk c.latentDim && layerNormOk c.inputDim &&
    attentionInitOk c.latentDim c.inputDim c.crossHeads c.crossDimHead c.attnDropout) &&
  (layerNormOk c.latentDim && ffInitOk c.latentDim c.ffDropout) &&
  (layerNormOk c.latentDim &&
    attentionInitOk c.latentDim c.latentDim c.latentHeads c.latentDimHead c.attnDropout) &&
  (layerNormOk c.latentDim && ffInitOk c.latentDim c.ffDropout)

/-- Whether `Perceiver.__init__` completes without raising:
`self.latents = nn.Parameter(torch.randn(num_latents, latent_dim))`, then the
depth loop (factories allocate only when `depth ≥ 1`), then
`to_logits = Sequential(LayerNorm(latent_dim), Linear(latent_dim,
num_classes))`.  No other condition is checked anywhere in the constructor;
in particular `num_freq_bands`, `depth` and `num_latents` are accepted at 0,
and no input/context data is available for a dimension check. -/
def perceiverInitOk (c : InitCfg) : Bool :=
  (decide (0 ≤ c.numLatents) && decide (0 ≤ c.latentDim)) &&
  (decide (c.depth ≤ 0) || factoriesOk c) &&
  (layerNormOk c.latentDim && linearOk c.latentDim c.numClasses)

/-- The library's default configuration with `num_freq_bands = 0`,
`depth = 0`, `num_latents = 0` (all non-positive). -/
def zeroCfg : InitCfg :=
  { numFreqBands := 0, depth := 0, inputChannels := 3, inputAxis := 2
    numLatents := 0, latentDim := 512, crossHeads := 1, latentHeads := 8
    crossDimHead := 64, latentDimHead := 64, numClasses := 1000
    attnDropout := 0, ffDropout := 0, fourierEncodeData := true }

/-- The same configuration with a negative `num_latents`, which the tensor
runtime does reject (at `torch.randn`). -/
def negLatentsCfg : InitCfg := { zeroCfg with numLatents := -1 }

/- ————————————————————————————————————————————————————————————————————————
   Part 3.  Numeric model of the forward computation over `ℝ`.
   ———————————————————————————————————————————————————————————————————————— -/

/-- `torch.linspace(-1, 1, steps = n)[i]`: `-1 + i * (2 / (n - 1))`
(for `steps = 1` torch returns `[-1]`, which the formula also yields since
`i = 0`). -/
noncomputable def linspaceVal (n : ℕ) (i : ℕ) : ℝ :=
  -1 + (i : ℝ) * (2 / ((n : ℝ) - 1))

/-- `torch.logspace(start, end, steps, base)`: the list
`base ^ (start + i * (end - start) / (steps - 1))` for `i < steps`
(for `steps = 1` torch returns `[base ^ start]`, which the formula also
yields since `i = 0`). -/
noncomputable def torchLogspace (start stop : ℝ) (steps : ℕ) (base : ℝ) :
    List ℝ :=
  List.ofFn fun i : Fin steps =>
    base ^ (start + (i : ℝ) * ((stop - start) / ((steps : ℝ) - 1)))

/-- `fourier_encode(x, max_freq, num_bands, base)` restricted to one scalar
coordinate `x` (the source applies it elementwise after `unsqueeze(-1)`):
`scales = logspace(0, log(max_freq/2)/log(base), num_bands, base)`;
`x ← x * scales * π`; output `cat([sin(x), cos(x)], -1)` followed by the raw
coordinate (`cat((x, orig_x), -1)`). -/
noncomputable def fourier_encode (x maxFreq : ℝ) (numBands : ℕ) (base : ℝ) :
    List ℝ :=
  let scales := torchLogspace 0 (Real.log (maxFreq / 2) / Real.log base)
    numBands base
  let xs := scales.map fun s => x * s * Real.pi
  (xs.map Real.sin ++ xs.map Real.cos) ++ [x]

/-- `fourier_encode` together with its failure behaviour, in the order the
Python evaluates: `math.log(max_freq / 2)` raises a domain error unless
`max_freq / 2 > 0`; `math.log(base)` raises unless `base > 0`; the division
raises iff `log(base) = 0` (i.e. `base = 1`); `torch.logspace` raises iff
`steps = num_bands` is negative (`steps = 0` yields an empty scale tensor,
which broadcasts to an empty sine/cosine block, so the output is just the
raw coordinate). -/
noncomputable def fourier_encode_run (x maxFreq : ℝ) (numBands : ℤ)
    (base : ℝ) : Except String (List ℝ) :=
  if maxFreq / 2 ≤ 0 then .error "math domain error"
  else if base ≤ 0 then .error "math domain error"
  else if Real.log base = 0 then .error "float division by zero"
  else if numBands < 0 then .error "logspace: steps must be nonnegative"
  else .ok (fourier_encode x maxFreq numBands.toNat base)

/-- The scale sequence exactly as the specification words it: `num_bands`
values log-spaced between `base ^ 0` and `base ^ log_base(max_freq / 2)`,
i.e. `base` raised to exponents equally spaced from `0` to
`log(max_freq/2) / log(base)`. -/
noncomputable def specFourierScales (maxFreq : ℝ) (numBands : ℕ) (base : ℝ) :
    List ℝ :=
  List.ofFn fun i : Fin numBands =>
    base ^ ((i : ℝ) * ((Real.log (maxFreq / 2) / Real.log base) /
      ((numBands : ℝ) - 1)))

/-- External elementwise operations supplied by collaborators outside the
source file: `F.gelu` (torch runtime) and the rotary rotation.
`rotary` is Modelled from the spec: the `RotaryPositionService.rotate`
contract (`perceiver_pytorch.rotary.apply_rotary_emb` is not part of the
given source) rotates a `[n, d]` query or key slice as a function of the
rotation table, applied uniformly to every `(batch × head)` slice. -/
structure TorchOps where
  gelu : ℝ → ℝ
  rotary : ℕ × ℕ → (n d : ℕ) → (Fin n → Fin d → ℝ) → Fin n → Fin d → ℝ

/-- A rotation table, Modelled from the spec: `SinusoidalEmbeddings`
(`perceiver_pytorch.rotary`, not part of the given source) derives the table
from the latent sequence length and the head dimension
(`make_table(seq_len, dim_head) -> RotationTable`). -/
abbrev RotationTable := ℕ × ℕ

/-- Modelled from the spec: `pos_emb = self.sinu_emb(x)` produces the
rotation table determined by the latent count and `latent_dim_head`. -/
def mkRotationTable (seqLen dimHead : ℕ) : RotationTable := (seqLen, dimHead)

/-- `nn.Linear` with bias: `v ↦ W v + b` (weight shape `[out, in]`). -/
noncomputable def linearMap {i o : ℕ} (W : Fin o → Fin i → ℝ)
    (b : Fin o → ℝ) (v : Fin i → ℝ) : Fin o → ℝ :=
  fun r => (∑ j, W r j * v j) + b r

/-- `nn.Linear` with `bias=False`: `v ↦ W v`. -/
noncomputable def linearNoBias {i o : ℕ} (W : Fin o → Fin i → ℝ)
    (v : Fin i → ℝ) : Fin o → ℝ :=
  fun r => ∑ j, W r j * v j

/-- `softmax(dim=-1)` of a score vector. -/
noncomputable def softmax {n : ℕ} (s : Fin n → ℝ) : Fin n → ℝ :=
  fun j => Real.exp (s j) / ∑ j', Real.exp (s j')

/-- `torch.finfo(float32).max`, the most positive finite `float32` value
`(2 - 2⁻²³) · 2¹²⁷`; the mask fill value is its negation. -/
noncomputable def f32Max : ℝ := (2 - (2 : ℝ) ^ (-23 : ℤ)) * 2 ^ (127 : ℕ)

/-- `nn.LayerNorm(d)` (default `eps = 1e-5`, elementwise affine):
biased mean/variance over the last axis, then scale and shift. -/
noncomputable def layerNorm {d : ℕ} (g b : Fin d → ℝ) (v : Fin d → ℝ) :
    Fin d → ℝ :=
  let m : ℝ := (∑ i, v i) / d
  let sq : ℝ := (∑ i, (v i - m) ^ 2) / d
  fun i => (v i - m) / Real.sqrt (sq + 1e-5) * g i + b i

/-- Parameters of `nn.LayerNorm(d)`. -/
structure LNParams (d : ℕ) where
  g : Fin d → ℝ
  b : Fin d → ℝ

/-- Parameters of one `Attention` module with query dimension `qd`, context
dimension `cd`, `h` heads of `dh` dimensions: `to_q : Linear(qd, h*dh)`
(no bias), `to_kv : Linear(cd, 2*(h*dh))` (no bias), and the output
projection `to_out : Linear(h*dh, qd)` (with bias; the trailing dropout is
identity in evaluation mode). -/
structure AttnParams (qd cd h dh : ℕ) where
  toQ : Fin (h * dh) → Fin qd → ℝ
  toKV : Fin (2 * (h * dh)) → Fin cd → ℝ
  toOutW : Fin qd → Fin (h * dh) → ℝ
  toOutB : Fin qd → ℝ

/-- The rearrange `"b n (h d) -> (b h) n d"` index map: head `hd`, head
dimension `d` selects flat feature `hd * dh + d`. -/
def finMulAdd {h dh : ℕ} (hd : Fin h) (d : Fin dh) : Fin (h * dh) :=
  ⟨hd.val * dh + d.val, by
    have h1 : hd.val + 1 ≤ h := hd.isLt
    have h2 : (hd.val + 1) * dh ≤ h * dh := Nat.mul_le_mul_right dh h1
    have h3 : d.val < dh := d.isLt
    calc hd.val * dh + d.val < hd.val * dh + dh := by omega
    _ = (hd.val + 1) * dh := by ring
    _ ≤ h * dh := h2⟩

/-- The inverse rearrange `"(b h) n d -> b n (h d)"`: flat feature `f`
belongs to head `f / dh`. -/
def finDivHead {h dh : ℕ} (f : Fin (h * dh)) : Fin h :=
  ⟨f.val / dh, by
    have h1 := f.isLt
    rcases Nat.eq_zero_or_pos dh with h0 | h0
    · subst h0; omega
    · exact (Nat.div_lt_iff_lt_mul h0).mpr h1⟩

/-- The inverse rearrange `"(b h) n d -> b n (h d)"`: flat feature `f` has
head dimension `f % dh`. -/
def finModHead {h dh : ℕ} (f : Fin (h * dh)) : Fin dh :=
  ⟨f.val % dh, by
    have h1 := f.isLt
    rcases Nat.eq_zero_or_pos dh with h0 | h0
    · subst h0; omega
    · exact Nat.mod_lt _ h0⟩

/-- Per-head query array: `q = to_q(x)` rearranged to `(h) n d`. -/
noncomputable def attnQ {qd cd h dh nq : ℕ} (A : AttnParams qd cd h dh)
    (x : Fin nq → Fin qd → ℝ) : Fin h → Fin nq → Fin dh → ℝ :=
  fun hd n d => linearNoBias A.toQ (x n) (finMulAdd hd d)

/-- Per-head key array: first half of the `to_kv(context)` chunk,
rearranged to `(h) n d`. -/
noncomputable def attnK {qd cd h dh nc : ℕ} (A : AttnParams qd cd h dh)
    (ctx : Fin nc → Fin cd → ℝ) : Fin h → Fin nc → Fin dh → ℝ :=
  fun hd n d =>
    linearNoBias A.toKV (ctx n)
      ⟨(finMulAdd hd d).val, by have := (finMulAdd hd d).isLt; omega⟩

/-- Per-head value array: second half of the `to_kv(context)` chunk,
rearranged to `(h) n d`. -/
noncomputable def attnV {qd cd h dh nc : ℕ} (A : AttnParams qd cd h dh)
    (ctx : Fin nc → Fin cd → ℝ) : Fin h → Fin nc → Fin dh → ℝ :=
  fun hd n d =>
    linearNoBias A.toKV (ctx n)
      ⟨h * dh + (finMulAdd hd d).val, by have := (finMulAdd hd d).isLt; omega⟩

/-- The mask-independent tail of `Attention.forward` after the optional
rotary rotation: `sim = einsum("b i d, b j d -> b i j", q, k) * scale` with
`scale = dim_head ** -0.5`; optional `masked_fill_` of `~mask` positions with
`-torch.finfo(sim.dtype).max` (the mask, flattened and repeated per head,
selects context positions); softmax over the context axis; weighted sum with
the value array; heads folded back (`"(b h) n d -> b n (h d)"`); output
projection. -/
noncomputable def attnCore {qd cd h dh nq nc : ℕ} (A : AttnParams qd cd h dh)
    (q : Fin h → Fin nq → Fin dh → ℝ) (k : Fin h → Fin nc → Fin dh → ℝ)
    (v : Fin h → Fin nc → Fin dh → ℝ) (mask : Option (Fin nc → Bool)) :
    Fin nq → Fin qd → ℝ :=
  let scale : ℝ := (dh : ℝ) ^ (-(1 / 2) : ℝ)
  let sim : Fin h → Fin nq → Fin nc → ℝ :=
    fun hd i j => (∑ d, q hd i d * k hd j d) * scale
  let simM : Fin h → Fin nq → Fin nc → ℝ :=
    match mask with
    | some m => fun hd i j => if m j then sim hd i j else -f32Max
    | none => sim
  let attnW : Fin h → Fin nq → Fin nc → ℝ := fun hd i => softmax (simM hd i)
  let outH : Fin h → Fin nq → Fin dh → ℝ :=
    fun hd i d => ∑ j, attnW hd i j * v hd j d
  let merged : Fin nq → Fin (h * dh) → ℝ :=
    fun i f => outH (finDivHead f) i (finModHead f)
  fun i => linearMap A.toOutW A.toOutB (merged i)

/-- `Attention.forward(x, context, mask, pos_emb)`: project to per-head
query/key/value arrays; if `pos_emb` is present, rotate the query and key
arrays (`q, k = apply_rotary_emb(q, k, pos_emb)`) — the value array is
untouched; then the scaled-dot-product core. -/
noncomputable def attention_forward (ops : TorchOps) {qd cd h dh nq nc : ℕ}
    (A : AttnParams qd cd h dh) (x : Fin nq → Fin qd → ℝ)
    (ctx : Fin nc → Fin cd → ℝ) (mask : Option (Fin nc → Bool))
    (posEmb : Option RotationTable) : Fin nq → Fin qd → ℝ :=
  match posEmb with
  | some t =>
    attnCore A (fun hd => ops.rotary t nq dh (attnQ A x hd))
      (fun hd => ops.rotary t nc dh (attnK A ctx hd)) (attnV A ctx) mask
  | none => attnCore A (attnQ A x) (attnK A ctx) (attnV A ctx) mask

/-- Parameters of `FeedForward(dim, mult)`:
`Linear(dim, dim * mult * 2)`, GEGLU, dropout (identity in evaluation mode),
`Linear(dim * mult, dim)`. -/
structure FFParams (d mult : ℕ) where
  w1 : Fin (d * mult * 2) → Fin d → ℝ
  b1 : Fin (d * mult * 2) → ℝ
  w2 : Fin d → Fin (d * mult) → ℝ
  b2 : Fin d → ℝ

/-- `FeedForward.forward`: first linear, then GEGLU
(`x, gates = x.chunk(2, dim=-1); x * F.gelu(gates)`), then second linear. -/
noncomputable def feed_forward (ops : TorchOps) {d mult : ℕ}
    (P : FFParams d mult) (v : Fin d → ℝ) : Fin d → ℝ :=
  let h1 := linearMap P.w1 P.b1 v
  let g : Fin (d * mult) → ℝ := fun i =>
    h1 ⟨i.val, by have := i.isLt; omega⟩ *
      ops.gelu (h1 ⟨d * mult + i.val, by have := i.isLt; omega⟩)
  linearMap P.w2 P.b2 g

/-- `PreNorm` around a self-attention sublayer: normalize `x`, then call the
wrapped `Attention` with no explicit context (so the context defaults to the
normalized `x`), no mask, and the given rotary table. -/
noncomputable def prenorm_self_attn (ops : TorchOps) {qd h dh nq : ℕ}
    (ln : LNParams qd) (A : AttnParams qd qd h dh)
    (x : Fin nq → Fin qd → ℝ) (posEmb : Option RotationTable) :
    Fin nq → Fin qd → ℝ :=
  let xn := fun n => layerNorm ln.g ln.b (x n)
  attention_forward ops A xn xn none posEmb

/-- `PreNorm` (with `context_dim` set) around the cross-attention sublayer:
normalize `x` and, with an independent `LayerNorm`, the context; pass the
mask through; no rotary table. -/
noncomputable def prenorm_cross_attn (ops : TorchOps) {qd cd h dh nq nc : ℕ}
    (ln : LNParams qd) (lnCtx : LNParams cd) (A : AttnParams qd cd h dh)
    (x : Fin nq → Fin qd → ℝ) (ctx : Fin nc → Fin cd → ℝ)
    (mask : Option (Fin nc → Bool)) : Fin nq → Fin qd → ℝ :=
  attention_forward ops A (fun n => layerNorm ln.g ln.b (x n))
    (fun n => layerNorm lnCtx.g lnCtx.b (ctx n)) mask none

/-- `PreNorm` around a feed-forward sublayer (applied per position). -/
noncomputable def prenorm_ff (ops : TorchOps) {d mult : ℕ}
    (ln : LNParams d) (P : FFParams d mult) (v : Fin d → ℝ) : Fin d → ℝ :=
  feed_forward ops P (layerNorm ln.g ln.b v)

/-- Static configuration of a constructed `Perceiver` (the sizes that fix
the parameter shapes), together with the per-call spatial axis sizes
`dims` of the input (`len(axis) == input_axis` is asserted by `forward`,
so the axis sizes determine the positional grid). -/
structure Config where
  numFreqBands : ℕ
  maxFreq : ℝ
  freqBase : ℝ
  inputChannels : ℕ
  dims : List ℕ
  numLatents : ℕ
  latentDim : ℕ
  crossHeads : ℕ
  latentHeads : ℕ
  crossDimHead : ℕ
  latentDimHead : ℕ
  numClasses : ℕ
  fourierEncodeData : Bool
  selfAttnRelPos : Bool

/-- `fourier_channels = input_axis * (num_freq_bands * 2 + 1)` when Fourier
encoding is enabled, else 0. -/
def Config.fourierChannels (c : Config) : ℕ :=
  if c.fourierEncodeData then c.dims.length * (2 * c.numFreqBands + 1) else 0

/-- `input_dim = fourier_channels + input_channels` (the data channels come
first in the concatenation `torch.cat((data, enc_pos), dim=-1)`). -/
def Config.inputDim (c : Config) : ℕ := c.inputChannels + c.fourierChannels

/-- Number of flattened spatial positions
(`rearrange(data, "b ... d -> b (...) d")`). -/
def Config.numPos (c : Config) : ℕ := c.dims.prod

/-- Parameters of one self block `(self_attn, self_ff)` (each wrapped in
`PreNorm(latent_dim, ·)`). -/
structure SelfBlockP (c : Config) where
  aLn : LNParams c.latentDim
  attn : AttnParams c.latentDim c.latentDim c.latentHeads c.latentDimHead
  fLn : LNParams c.latentDim
  ff : FFParams c.latentDim 4

/-- Parameters of one depth group `(cross_attn, cross_ff, self_attns)`. -/
structure LayerP (c : Config) where
  cLn : LNParams c.latentDim
  cCtxLn : LNParams c.inputDim
  cAttn : AttnParams c.latentDim c.inputDim c.crossHeads c.crossDimHead
  cfLn : LNParams c.latentDim
  cff : FFParams c.latentDim 4
  blocks : List (SelfBlockP c)

/-- All persistent parameters of a constructed `Perceiver`: the latent
array, the depth groups, and the classification head
`to_logits = Sequential(LayerNorm(latent_dim), Linear(latent_dim,
num_classes))`. -/
structure PerceiverP (c : Config) where
  latents : Fin c.numLatents → Fin c.latentDim → ℝ
  layers : List (LayerP c)
  outLn : LNParams c.latentDim
  outW : Fin c.numClasses → Fin c.latentDim → ℝ
  outB : Fin c.numClasses → ℝ

/-- Row-major stride of spatial axis `a` (the flatten
`"b ... d -> b (...) d"` and `torch.meshgrid(indexing="ij")` lay positions
out row-major, last axis fastest). -/
def strideAt (dims : List ℕ) (a : ℕ) : ℕ := (dims.drop (a + 1)).prod

/-- Coordinate of flattened spatial position `p` along axis `a`: the
`torch.linspace(-1, 1, steps=size)` grid value at the unraveled index. -/
noncomputable def gridCoord (dims : List ℕ) (p a : ℕ) : ℝ :=
  linspaceVal (dims.getD a 1) ((p / strideAt dims a) % dims.getD a 1)

/-- One batch row of the input after the optional Fourier concatenation and
the spatial flatten: channel `ch < input_channels` is the raw datum; channel
`input_channels + a*(2*num_bands+1) + f` is feature `f` of
`fourier_encode(pos_a)` for axis `a` (the rearrange
`"... n d -> ... (n d)"` lays the per-axis feature blocks out
axis-major).  When `fourier_encode_data` is off, `input_dim =
input_channels` and only the first branch is reachable. -/
noncomputable def encodeRow (c : Config)
    (row : Fin c.numPos → Fin c.inputChannels → ℝ) :
    Fin c.numPos → Fin c.inputDim → ℝ :=
  fun p ch =>
    if h : ch.val < c.inputChannels then row p ⟨ch.val, h⟩
    else
      let j := ch.val - c.inputChannels
      (fourier_encode (gridCoord c.dims p.val (j / (2 * c.numFreqBands + 1)))
        c.maxFreq c.numFreqBands c.freqBase).getD
        (j % (2 * c.numFreqBands + 1)) 0

/-- One self block applied to the running latent state:
`x = self_attn(x, pos_emb=pos_emb) + x; x = self_ff(x) + x`. -/
noncomputable def apply_self_block (ops : TorchOps) {c : Config}
    (B : SelfBlockP c) (posEmb : Option RotationTable)
    (x : Fin c.numLatents → Fin c.latentDim → ℝ) :
    Fin c.numLatents → Fin c.latentDim → ℝ :=
  let x1 := fun n d => prenorm_self_attn ops B.aLn B.attn x posEmb n d + x n d
  fun n d => prenorm_ff ops B.fLn B.ff (x1 n) d + x1 n d

/-- One depth group applied to the running latent state:
`x = cross_attn(x, context=data, mask=mask) + x; x = cross_ff(x) + x`,
then the self blocks in order. -/
noncomputable def apply_layer (ops : TorchOps) {c : Config} (ly : LayerP c)
    (ctx : Fin c.numPos → Fin c.inputDim → ℝ)
    (mask : Option (Fin c.numPos → Bool)) (posEmb : Option RotationTable)
    (x : Fin c.numLatents → Fin c.latentDim → ℝ) :
    Fin c.numLatents → Fin c.latentDim → ℝ :=
  let x1 := fun n d =>
    prenorm_cross_attn ops ly.cLn ly.cCtxLn ly.cAttn x ctx mask n d + x n d
  let x2 := fun n d => prenorm_ff ops ly.cfLn ly.cff (x1 n) d + x1 n d
  ly.blocks.foldl (fun xx B => apply_self_block ops B posEmb xx) x2

/-- The whole `for cross_attn, cross_ff, self_attns in self.layers` loop. -/
noncomputable def apply_layers (ops : TorchOps) {c : Config}
    (ls : List (LayerP c)) (ctx : Fin c.numPos → Fin c.inputDim → ℝ)
    (mask : Option (Fin c.numPos → Bool)) (posEmb : Option RotationTable)
    (x : Fin c.numLatents → Fin c.latentDim → ℝ) :
    Fin c.numLatents → Fin c.latentDim → ℝ :=
  ls.foldl (fun xx ly => apply_layer ops ly ctx mask posEmb xx) x

/-- The rotary table of one forward call:
`pos_emb = self.sinu_emb(x) if exists(self.sinu_emb) else None`, computed
once before the layer loop. -/
def forwardPosEmb (c : Config) : Option RotationTable :=
  if c.selfAttnRelPos then
    some (mkRotationTable c.numLatents c.latentDimHead)
  else none

/-- The running latent state of one batch row after the layer loop: start
from the batch-broadcast latent array (`repeat(self.latents,
"n d -> b n d", b=b)` gives every row the same initial state), then apply
every depth group. -/
noncomputable def perceiver_latent_state (ops : TorchOps) {c : Config}
    (P : PerceiverP c) (row : Fin c.numPos → Fin c.inputChannels → ℝ)
    (mask : Option (Fin c.numPos → Bool)) :
    Fin c.numLatents → Fin c.latentDim → ℝ :=
  apply_layers ops P.layers (encodeRow c row) mask (forwardPosEmb c) P.latents

/-- One batch row of `Perceiver.forward`: the latent state after the layer
loop, mean-pooled over the latent axis (`x.mean(dim=-2)`), then
`to_logits`. -/
noncomputable def perceiver_forward_row (ops : TorchOps) {c : Config}
    (P : PerceiverP c) (row : Fin c.numPos → Fin c.inputChannels → ℝ)
    (mask : Option (Fin c.numPos → Bool)) : Fin c.numClasses → ℝ :=
  let xfin := perceiver_latent_state ops P row mask
  let pooled : Fin c.latentDim → ℝ :=
    fun d => (∑ n, xfin n d) / (c.numLatents : ℝ)
  linearMap P.outW P.outB (layerNorm P.outLn.g P.outLn.b pooled)

/-- `Perceiver.forward(data, mask)` on a batch of `b` rows.  Every tensor
operation of the source acts independently per batch row (`einsum` contracts
no batch index, the linear/normalization/softmax/GEGLU maps are applied to
the trailing axes, the mask is repeated per row and head, the positional
encoding is broadcast identically to every row, and the latent array is
broadcast per row), so the batch axis is realized as an indexed family of
row computations. -/
noncomputable def perceiver_forward (ops : TorchOps) {c : Config}
    (P : PerceiverP c) {b : ℕ}
    (data : Fin b → Fin c.numPos → Fin c.inputChannels → ℝ)
    (mask : Option (Fin b → Fin c.numPos → Bool)) :
    Fin b → Fin c.numClasses → ℝ :=
  fun i => perceiver_forward_row ops P (data i) (mask.map fun m => m i)

/-- The layer loop with every layer's parameters threaded through the pass
and handed back: each sublayer call only reads its parameters (the source
assigns to no module attribute inside `forward`), so each step returns its
`LayerP` alongside the new latent state. -/
noncomputable def apply_layers_st (ops : TorchOps) {c : Config} {b : ℕ}
    (ls : List (LayerP c)) (ctx : Fin b → Fin c.numPos → Fin c.inputDim → ℝ)
    (mask : Option (Fin b → Fin c.numPos → Bool))
    (posEmb : Option RotationTable)
    (x : Fin b → Fin c.numLatents → Fin c.latentDim → ℝ) :
    List (LayerP c) × (Fin b → Fin c.numLatents → Fin c.latentDim → ℝ) :=
  match ls with
  | [] => ([], x)
  | ly :: rest =>
    let x1 := fun i =>
      apply_layer ops ly (ctx i) (mask.map fun m => m i) posEmb (x i)
    let r := apply_layers_st ops rest ctx mask posEmb x1
    (ly :: r.1, r.2)

/-- `Perceiver.forward` with the persistent state threaded explicitly: the
call reads `self.latents` and the layer parameters, reassembles the
parameter record, and returns it with the logits (the logits array is the
only other output). -/
noncomputable def perceiver_forward_st (ops : TorchOps) {c : Config}
    (P : PerceiverP c) {b : ℕ}
    (data : Fin b → Fin c.numPos → Fin c.inputChannels → ℝ)
    (mask : Option (Fin b → Fin c.numPos → Bool)) :
    PerceiverP c × (Fin b → Fin c.numClasses → ℝ) :=
  let ctx := fun i => encodeRow c (data i)
  let x0 := fun _ : Fin b => P.latents
  let r := apply_layers_st ops P.layers ctx mask (forwardPosEmb c) x0
  ({ P with layers := r.1 },
    fun i =>
      linearMap P.outW P.outB (layerNorm P.outLn.g P.outLn.b
        (fun d => (∑ n, r.2 i n d) / (c.numLatents : ℝ))))

/-- Observable events of one forward call, for the rotary-threading
invariant: the table computation (`self.sinu_emb(x)`, line before the layer
loop) and every attention invocation with the `pos_emb` argument it
received. -/
inductive TraceEv
  | mkTable (t : RotationTable)
  | crossCall (pe : Option RotationTable)
  | selfCall (pe : Option RotationTable)
deriving DecidableEq

/-- The attention events of one depth group: the cross attention is called
with no `pos_emb`; each self block's attention is called with the one
`pos_emb` of the call. -/
def layerTrace (posEmb : Option RotationTable) (nblocks : ℕ) : List TraceEv :=
  TraceEv.crossCall none :: List.replicate nblocks (TraceEv.selfCall posEmb)

/-- The event trace of one `Perceiver.forward` call: one table computation
when rotary position is enabled (none otherwise), then the attention events
of every depth group in order. -/
def perceiver_trace {c : Config} (P : PerceiverP c) : List TraceEv :=
  (if c.selfAttnRelPos then
    [TraceEv.mkTable (mkRotationTable c.numLatents c.latentDimHead)]
  else []) ++
    P.layers.foldr
      (fun ly acc => layerTrace (forwardPosEmb c) ly.blocks.length ++ acc) []

/-- Recognizer for table-computation events. -/
def isMkTable : TraceEv → Bool
  | .mkTable _ => true
  | _ => false

/-- Recognizer for latent self-attention invocation events. -/
def isSelfCall : TraceEv → Bool
  | .selfCall _ => true
  | _ => false

/-- Recognizer for cross-attention invocation events. -/
def isCrossCall : TraceEv → Bool
  | .crossCall _ => true
  | _ => false

/-- Every parameter of an `Attention` module's linear projections is zero. -/
def ZeroAttn {qd cd h dh : ℕ} (A : AttnParams qd cd h dh) : Prop :=
  (∀ i j, A.toQ i j = 0) ∧ (∀ i j, A.toKV i j = 0) ∧
    (∀ i j, A.toOutW i j = 0) ∧ (∀ i, A.toOutB i = 0)

/-- Every parameter of a `FeedForward` module's linear projections is
zero. -/
def ZeroFF {d mult : ℕ} (P : FFParams d mult) : Prop :=
  (∀ i j, P.w1 i j = 0) ∧ (∀ i, P.b1 i = 0) ∧
    (∀ i j, P.w2 i j = 0) ∧ (∀ i, P.b2 i = 0)

/-- All projection parameters of one self block are zero. -/
def ZeroBlock {c : Config} (B : SelfBlockP c) : Prop :=
  ZeroAttn B.attn ∧ ZeroFF B.ff

/-- All projection parameters of every sublayer of one depth group are
zero, so every sublayer's contribution is zero. -/
def ZeroLayer {c : Config} (ly : LayerP c) : Prop :=
  ZeroAttn ly.cAttn ∧ ZeroFF ly.cff ∧ ∀ B ∈ ly.blocks, ZeroBlock B

/-- Concrete external operations for witnesses: identity GELU, identity
rotation. -/
noncomputable def wOps : TorchOps :=
  { gelu := fun t => t, rotary := fun _ _ _ q => q }

/-- A minimal concrete configuration for witnesses: one 1-pixel spatial
axis, one channel, one latent of dimension one, single-head attention,
rotary position enabled. -/
noncomputable def wCfg : Config :=
  { numFreqBands := 1, maxFreq := 4, freqBase := 2, inputChannels := 1
    dims := [1], numLatents := 1, latentDim := 1, crossHeads := 1
    latentHeads := 1, crossDimHead := 1, latentDimHead := 1, numClasses := 1
    fourierEncodeData := true, selfAttnRelPos := true }

/-- A self block with all parameters zero (normalization scale one). -/
noncomputable def wBlock : SelfBlockP wCfg :=
  { aLn := { g := fun _ => 1, b := fun _ => 0 }
    attn := { toQ := fun _ _ => 0, toKV := fun _ _ => 0
              toOutW := fun _ _ => 0, toOutB := fun _ => 0 }
    fLn := { g := fun _ => 1, b := fun _ => 0 }
    ff := { w1 := fun _ _ => 0, b1 := fun _ => 0
            w2 := fun _ _ => 0, b2 := fun _ => 0 } }

/-- A depth group with all projection parameters zero and one self block. -/
noncomputable def wLayer : LayerP wCfg :=
  { cLn := { g := fun _ => 1, b := fun _ => 0 }
    cCtxLn := { g := fun _ => 1, b := fun _ => 0 }
    cAttn := { toQ := fun _ _ => 0, toKV := fun _ _ => 0
               toOutW := fun _ _ => 0, toOutB := fun _ => 0 }
    cfLn := { g := fun _ => 1, b := fun _ => 0 }
    cff := { w1 := fun _ _ => 0, b1 := fun _ => 0
             w2 := fun _ _ => 0, b2 := fun _ => 0 }
    blocks := [wBlock] }

/-- A concrete one-depth-group model with zero projection parameters. -/
noncomputable def wParams : PerceiverP wCfg :=
  { latents := fun _ _ => 1, layers := [wLayer]
    outLn := { g := fun _ => 1, b := fun _ => 0 }
    outW := fun _ _ => 0, outB := fun _ => 0 }

/- ————————————————————————————————————————————————————————————————————————
   Part 4.  Theorems.
   ———————————————————————————————————————————————————————————————————————— -/

theorem replicate_getD_eq {α : Type} (a dflt : α) :
    ∀ n i, i < n → (List.replicate n a).getD i dflt = a := by
  intro n
  induction n with
  | zero => omega
  | succ m ih =>
    intro i hi
    cases i with
    | zero => simp [List.replicate]
    | succ k => simpa [List.replicate] using ih k (by omega)

theorem buildSelfBlocks_uncached (spc : ℕ) : ∀ s : BuildSt,
    buildSelfBlocks false spc s =
      (freshBlocks s.fresh spc, { s with fresh := s.fresh + 2 * spc }) := by
  induction spc with
  | zero => intro s; simp [buildSelfBlocks, freshBlocks]
  | succ n ih =>
    intro s
    have harith : s.fresh + 1 + 1 + 2 * n = s.fresh + 2 * (n + 1) := by ring
    simp [buildSelfBlocks, callLA, callLF, ih, freshBlocks, harith]

theorem buildLayer_uncached (spc : ℕ) (s : BuildSt) :
    buildLayer false spc s =
      ((s.fresh + 2 * spc, s.fresh + 2 * spc + 1, freshBlocks s.fresh spc),
        { s with fresh := s.fresh + 2 * spc + 2 }) := by
  have harith : s.fresh + 2 * spc + 1 + 1 = s.fresh + 2 * spc + 2 := by ring
  simp [buildLayer, buildSelfBlocks_uncached, callCA, callCF, harith]

theorem buildLayers_untied (spc : ℕ) : ∀ (n i : ℕ) (s : BuildSt),
    buildLayers false spc i n s = untiedLayers spc n s.fresh := by
  intro n
  induction n with
  | zero => intro i s; simp [buildLayers, untiedLayers]
  | succ m ih =>
    intro i s
    simp [buildLayers, buildLayer_uncached, ih, untiedLayers]

theorem buildSelfBlocks_hit (a b : ℕ) : ∀ (spc fr : ℕ)
    (cca ccf : Option ℕ),
    buildSelfBlocks true spc ⟨fr, cca, ccf, some a, some b⟩ =
      (List.replicate spc (a, b), ⟨fr, cca, ccf, some a, some b⟩) := by
  intro spc
  induction spc with
  | zero => intro fr cca ccf; simp [buildSelfBlocks]
  | succ n ih =>
    intro fr cca ccf
    simp [buildSelfBlocks, callLA, callLF, ih, List.replicate_succ]

theorem buildLayer_first_zero (f : ℕ) :
    buildLayer true 0 ⟨f, none, none, none, none⟩ =
      ((f, f + 1, []), ⟨f + 2, some f, some (f + 1), none, none⟩) := by
  simp [buildLayer, buildSelfBlocks, callCA, callCF]

theorem buildLayer_first_succ (t f : ℕ) :
    buildLayer true (t + 1) ⟨f, none, none, none, none⟩ =
      ((f + 2, f + 3, List.replicate (t + 1) (f, f + 1)),
        ⟨f + 4, some (f + 2), some (f + 3), some f, some (f + 1)⟩) := by
  have h1 : buildSelfBlocks true (t + 1) ⟨f, none, none, none, none⟩ =
      (List.replicate (t + 1) (f, f + 1),
        ⟨f + 1 + 1, none, none, some f, some (f + 1)⟩) := by
    simp [buildSelfBlocks, callLA, callLF, buildSelfBlocks_hit,
      List.replicate_succ]
  have harith : f + 1 + 1 = f + 2 := by ring
  simp [buildLayer, h1, callCA, callCF, harith]

theorem buildLayer_steady (spc : ℕ) (s : BuildSt) (h : FullCache spc s) :
    buildLayer true spc s = (layerOfCache spc s, s) := by
  obtain ⟨hca, hcf, hrest⟩ := h
  obtain ⟨a, ha⟩ := Option.isSome_iff_exists.mp hca
  obtain ⟨b, hb⟩ := Option.isSome_iff_exists.mp hcf
  rcases hrest with h0 | ⟨hla, hlf⟩
  · subst h0
    simp [buildLayer, buildSelfBlocks, callCA, callCF, ha, hb, layerOfCache]
  · obtain ⟨la, hla'⟩ := Option.isSome_iff_exists.mp hla
    obtain ⟨lf, hlf'⟩ := Option.isSome_iff_exists.mp hlf
    have hs : s = ⟨s.fresh, some a, some b, some la, some lf⟩ := by
      cases s; simp_all
    rw [hs]
    simp [buildLayer, buildSelfBlocks_hit, callCA, callCF, layerOfCache]

theorem buildLayers_steady (spc : ℕ) : ∀ (n i : ℕ) (s : BuildSt),
    1 ≤ i → FullCache spc s →
    buildLayers true spc i n s = List.replicate n (layerOfCache spc s) := by
  intro n
  induction n with
  | zero => intro i s _ _; simp [buildLayers]
  | succ m ih =>
    intro i s hi hfc
    have hcache : (decide (0 < i) && true) = true := by
      simp [decide_eq_true_eq]; omega
    simp only [buildLayers, hcache, buildLayer_steady spc s hfc]
    rw [ih (i + 1) s (by omega) hfc, List.replicate_succ]

theorem perceiverLayers_tied (spc d : ℕ) :
    perceiverLayers true (d + 1) spc =
      layer0 spc :: List.replicate d (tiedTail spc) := by
  have hstep0 : perceiverLayers true (d + 1) spc =
      layer0 spc :: buildLayers true spc 1 d ⟨2 * spc + 2, none, none, none, none⟩ := by
    simp [perceiverLayers, buildLayers, buildLayer_uncached, layer0]
  rw [hstep0]
  cases d with
  | zero => simp [buildLayers]
  | succ e =>
    cases spc with
    | zero =>
      have hfc : FullCache 0 (⟨4, some 2, some 3, none, none⟩ : BuildSt) := by
        simp [FullCache]
      simp only [buildLayers, Nat.lt_irrefl]
      rw [show (decide (0 < 1) && true) = true by decide]
      simp only [buildLayer_first_zero]
      rw [buildLayers_steady 0 e 2 _ (by omega) hfc]
      simp [layerOfCache, tiedTail, List.replicate_succ]
    | succ t =>
      have hfc : FullCache (t + 1)
          (⟨2 * (t + 1) + 2 + 4, some (2 * (t + 1) + 2 + 2),
            some (2 * (t + 1) + 2 + 3), some (2 * (t + 1) + 2),
            some (2 * (t + 1) + 2 + 1)⟩ : BuildSt) := by
      
        refine ⟨by simp, by simp, Or.inr ⟨by simp, by simp⟩⟩
      simp only [buildLayers]
      rw [show (decide (0 < 1) && true) = true by decide]
      simp only [buildLayer_first_succ]
      rw [buildLayers_steady (t + 1) e 2 _ (by omega) hfc]
      have htt : tiedTail (t + 1) =
          (2 * (t + 1) + 2 + 2, 2 * (t + 1) + 2 + 3,
            List.replicate (t + 1) (2 * (t + 1) + 2, 2 * (t + 1) + 2 + 1)) := by
        simp [tiedTail]
      simp [layerOfCache, htt, List.replicate_succ]

theorem perceiverLayers_untied (spc depth : ℕ) :
    perceiverLayers false depth spc = untiedLayers spc depth 0 := by
  have h := buildLayers_untied spc depth 0 ⟨0, none, none, none, none⟩
  simpa [perceiverLayers] using h

theorem tied_getD (spc d i : ℕ) (h1 : 1 ≤ i) (h2 : i < d + 1) :
    (perceiverLayers true (d + 1) spc).getD i (0, 0, []) = tiedTail spc := by
  rw [perceiverLayers_tied]
  obtain ⟨k, rfl⟩ : ∃ k, i = k + 1 := ⟨i - 1, by omega⟩
  rw [List.getD_cons_succ]
  exact replicate_getD_eq _ _ d k (by omega)

/-- C1 (amended): with `weight_tie_layers=True`, all depth positions with
index `≥ 1` hold one shared group of Attention/FeedForward instances,
constructed at depth index 1; the instances of depth index 0 are fresh and
are reused by no later position (so the canonical shared instances are those
of index 1, not of index 0). -/
theorem weight_tie_reuse (depth spc : ℕ) (hd : 2 ≤ depth) (hs : 1 ≤ spc) :
    (∀ i j, 1 ≤ i → i < depth → 1 ≤ j → j < depth →
      (perceiverLayers true depth spc).getD i (0, 0, []) =
        (perceiverLayers true depth spc).getD j (0, 0, [])) ∧
    caAt (perceiverLayers true depth spc) 0 ≠
      caAt (perceiverLayers true depth spc) 1 ∧
    cfAt (perceiverLayers true depth spc) 0 ≠
      cfAt (perceiverLayers true depth spc) 1 ∧
    laAt (perceiverLayers true depth spc) 0 0 ≠
      laAt (perceiverLayers true depth spc) 1 0 ∧
    lfAt (perceiverLayers true depth spc) 0 0 ≠
      lfAt (perceiverLayers true depth spc) 1 0 := by
  obtain ⟨d, rfl⟩ : ∃ d, depth = d + 1 := ⟨depth - 1, by omega⟩
  obtain ⟨t, rfl⟩ : ∃ t, spc = t + 1 := ⟨spc - 1, by omega⟩
  refine ⟨fun i j hi1 hi2 hj1 hj2 => ?_, ?_, ?_, ?_, ?_⟩
  · rw [tied_getD _ _ i hi1 hi2, tied_getD _ _ j hj1 hj2]
  all_goals
    obtain ⟨e, rfl⟩ : ∃ e, d = e + 1 := ⟨d - 1, by omega⟩
  all_goals
    simp only [caAt, cfAt, laAt, lfAt, perceiverLayers_tied,
      List.replicate_succ, List.getD_cons_zero, List.getD_cons_succ,
      layer0, tiedTail, freshBlocks]
  all_goals simp

/-- C1 (counterexample): with `weight_tie_layers=True`, `depth=2`,
`self_per_cross_attn=1`, the latent-attention instance at depth index 1 is
not the instance constructed at depth index 0 — index 1 builds fresh
instances (which later indices then share), because `cache_fn` stores
nothing on the `_cache=False` call made at index 0. -/
theorem weight_tie_reuse_counterexample :
    laAt (perceiverLayers true 2 1) 1 0 ≠ laAt (perceiverLayers true 2 1) 0 0 := by
  decide

theorem weight_tie_reuse_witness :
    (perceiverLayers true 3 1).getD 2 (0, 0, []) =
      (perceiverLayers true 3 1).getD 1 (0, 0, []) :=
  (weight_tie_reuse 3 1 (by decide) (by decide)).1 2 1
    (by decide) (by decide) (by decide) (by decide)

/-- C7: with `weight_tie_layers=True` (and depth index 2 in range), the
latent-attention instance at depth index 1 and the one at depth index 2 are
the same instance — the same allocation id, so a parameter mutation through
one alias is observable through the other; with `weight_tie_layers=False`
they are distinct instances. -/
theorem latent_attn_sharing (depth spc : ℕ) (h3 : 3 ≤ depth) (hs : 1 ≤ spc) :
    laAt (perceiverLayers true depth spc) 1 0 =
      laAt (perceiverLayers true depth spc) 2 0 ∧
    laAt (perceiverLayers false depth spc) 1 0 ≠
      laAt (perceiverLayers false depth spc) 2 0 := by
  obtain ⟨t, rfl⟩ : ∃ t, spc = t + 1 := ⟨spc - 1, by omega⟩
  constructor
  · obtain ⟨d, rfl⟩ : ∃ d, depth = d + 1 := ⟨depth - 1, by omega⟩
    simp only [laAt]
    rw [tied_getD (t + 1) d 1 (by omega) (by omega),
      tied_getD (t + 1) d 2 (by omega) (by omega)]
  · obtain ⟨m, rfl⟩ : ∃ m, depth = m + 1 + 1 + 1 := ⟨depth - 3, by omega⟩
    rw [perceiverLayers_untied]
    simp only [untiedLayers, laAt, freshBlocks, List.getD_cons_succ,
      List.getD_cons_zero]
    omega

theorem latent_attn_sharing_witness :
    laAt (perceiverLayers true 3 1) 1 0 = laAt (perceiverLayers true 3 1) 2 0 ∧
    laAt (perceiverLayers false 3 1) 1 0 ≠
      laAt (perceiverLayers false 3 1) 2 0 :=
  latent_attn_sharing 3 1 (by decide) (by decide)

/-- C2 (counterexample): the configuration with `num_freq_bands = 0`,
`depth = 0` and `num_latents = 0` — all three non-positive — constructs
successfully: `Perceiver.__init__` rejects none of them (zero-size tensors
are legal allocations and the depth loop is simply empty), contradicting the
claim that such parameters fail fast at construction. -/
theorem constructor_accepts_nonpositive : perceiverInitOk zeroCfg = true := by
  decide

/-- C2 (amended): `Perceiver.__init__` performs no fail-fast validation of
`num_freq_bands`, `depth` or `num_latents`: the zero (non-positive)
configuration is accepted, and the only construction-time rejection in this
region of the parameter space is the tensor runtime refusing a negative
dimension (e.g. `num_latents = -1`); no context-dimension check can occur at
construction since no data is available — a mismatch surfaces at forward
time. -/
theorem constructor_no_validation :
    perceiverInitOk zeroCfg = true ∧ perceiverInitOk negLatentsCfg = false := by
  decide

/-- C8 (counterexample): `fourier_encode(x=0, max_freq=8, num_bands=0,
base=2)` does not fail — `torch.logspace` with `steps=0` yields an empty
scale tensor and the result is just the raw coordinate — contradicting the
claim that every `num_bands ≤ 0` fails with an invalid-argument error. -/
theorem fourier_encode_zero_bands_ok :
    (fourier_encode_run 0 8 0 2).isOk = true := by
  have h1 : ¬((8 : ℝ) / 2 ≤ 0) := by norm_num
  have h2 : ¬((2 : ℝ) ≤ 0) := by norm_num
  have h3 : ¬(Real.log 2 = 0) := by
    have := Real.log_pos (by norm_num : (1 : ℝ) < 2)
    linarith
  have h4 : ¬((0 : ℤ) < 0) := by decide
  rw [fourier_encode_run, if_neg h1, if_neg h2, if_neg h3, if_neg h4]
  rfl

/-- C8 (amended): `fourier_encode` is a pure deterministic function whose
failure modes are exactly: `max_freq ≤ 0` (`math.log` domain error),
`base ≤ 0` (`math.log` domain error), `base = 1` (division by
`log(base) = 0`), and `num_bands < 0` (`torch.logspace` rejects negative
`steps`).  `num_bands = 0` does not fail — the sine/cosine blocks are empty
and the output is the raw coordinate alone — and even `num_bands ≥ 1` fails
when `max_freq` or `base` is invalid. -/
theorem fourier_encode_failure_iff (x maxFreq : ℝ) (nb : ℤ) (base : ℝ) :
    (fourier_encode_run x maxFreq nb base).isOk = true ↔
      (0 < maxFreq ∧ 0 < base ∧ base ≠ 1 ∧ 0 ≤ nb) := by
  unfold fourier_encode_run
  split_ifs with h1 h2 h3 h4
  · simp only [Except.isOk, Except.toBool, Bool.false_eq_true, false_iff]
    rintro ⟨hm, -, -, -⟩
    have : 0 < maxFreq / 2 := by positivity
    linarith
  · simp only [Except.isOk, Except.toBool, Bool.false_eq_true, false_iff]
    rintro ⟨-, hb, -, -⟩
    linarith
  · simp only [Except.isOk, Except.toBool, Bool.false_eq_true, false_iff]
    rintro ⟨-, hb, hb1, -⟩
    rcases Real.log_eq_zero.mp h3 with h | h | h
    · linarith
    · exact hb1 h
    · linarith
  · simp only [Except.isOk, Except.toBool, Bool.false_eq_true, false_iff]
    rintro ⟨-, -, -, hnb⟩
    omega
  · simp only [Except.isOk, Except.toBool, true_iff]
    have hm : 0 < maxFreq / 2 := not_le.mp h1
    refine ⟨by linarith, not_le.mp h2, ?_, by omega⟩
    intro hb1
    subst hb1
    exact h3 Real.log_one

/-- C4: `fourier_encode` produces exactly the concatenation
`[sin(x·s₀·π), …, sin(x·s_{b-1}·π), cos(x·s₀·π), …, cos(x·s_{b-1}·π), x]`
over the spec's log-spaced scale sequence; the trailing dimension per
coordinate axis is `2*num_bands + 1`; and at `x = 0` every sine term is 0,
every cosine term is 1, and the trailing raw coordinate is 0. -/
theorem fourier_encode_spec (x maxFreq base : ℝ) (nb : ℕ) (h : 1 ≤ nb) :
    fourier_encode x maxFreq nb base =
      ((specFourierScales maxFreq nb base).map fun s =>
        Real.sin (x * s * Real.pi)) ++
      ((specFourierScales maxFreq nb base).map fun s =>
        Real.cos (x * s * Real.pi)) ++ [x] ∧
    (fourier_encode x maxFreq nb base).length = 2 * nb + 1 ∧
    fourier_encode 0 maxFreq nb base =
      (List.replicate nb 0 ++ List.replicate nb 1) ++ [0] := by
  have hsc : torchLogspace 0 (Real.log (maxFreq / 2) / Real.log base) nb base
      = specFourierScales maxFreq nb base := by
    unfold torchLogspace specFourierScales
    congr 1
    funext i
    congr 1
    ring
  refine ⟨?_, ?_, ?_⟩
  · simp only [fourier_encode, hsc, List.map_map]
    rfl
  · simp only [fourier_encode, List.length_append, List.length_map,
      List.length_cons, List.length_nil, torchLogspace, List.length_ofFn]
    omega
  · have hsin : ∀ l : List ℝ,
        ((l.map fun s => (0 : ℝ) * s * Real.pi).map Real.sin) =
          List.replicate l.length 0 := by
      intro l
      induction l with
      | nil => simp
      | cons a l ih => simp [ih, List.replicate_succ]
    have hcos : ∀ l : List ℝ,
        ((l.map fun s => (0 : ℝ) * s * Real.pi).map Real.cos) =
          List.replicate l.length 1 := by
      intro l
      induction l with
      | nil => simp
      | cons a l ih => simp [ih, List.replicate_succ]
    have hlen : (torchLogspace 0 (Real.log (maxFreq / 2) / Real.log base)
        nb base).length = nb := by
      simp [torchLogspace]
    simp only [fourier_encode, hsin, hcos, hlen]

theorem fourier_encode_spec_witness :
    (fourier_encode 0 4 1 2).length = 2 * 1 + 1 :=
  (fourier_encode_spec 0 4 2 1 (by norm_num)).2.1

theorem attention_forward_zero (ops : TorchOps) {qd cd h dh nq nc : ℕ}
    (A : AttnParams qd cd h dh) (hA : ZeroAttn A) (x : Fin nq → Fin qd → ℝ)
    (ctx : Fin nc → Fin cd → ℝ) (mask : Option (Fin nc → Bool))
    (posEmb : Option RotationTable) :
    attention_forward ops A x ctx mask posEmb = fun _ _ => 0 := by
  obtain ⟨-, -, hW, hB⟩ := hA
  cases posEmb <;>
    · funext i r
      simp [attention_forward, attnCore, linearMap, hW, hB]

theorem feed_forward_zero (ops : TorchOps) {d mult : ℕ} (P : FFParams d mult)
    (hP : ZeroFF P) (v : Fin d → ℝ) : feed_forward ops P v = fun _ => 0 := by
  obtain ⟨-, -, hW, hB⟩ := hP
  funext r
  simp [feed_forward, linearMap, hW, hB]

theorem apply_self_block_id (ops : TorchOps) {c : Config} (B : SelfBlockP c)
    (hB : ZeroBlock B) (posEmb : Option RotationTable)
    (x : Fin c.numLatents → Fin c.latentDim → ℝ) :
    apply_self_block ops B posEmb x = x := by
  have ha := attention_forward_zero ops B.attn hB.1
    (fun n => layerNorm B.aLn.g B.aLn.b (x n))
    (fun n => layerNorm B.aLn.g B.aLn.b (x n)) none posEmb
  have hx1 : (fun n d =>
      prenorm_self_attn ops B.aLn B.attn x posEmb n d + x n d) = x := by
    funext n d
    simp [prenorm_self_attn, ha]
  unfold apply_self_block
  rw [hx1]
  funext n d
  simp [prenorm_ff, feed_forward_zero ops B.ff hB.2]

theorem foldl_self_blocks_id (ops : TorchOps) {c : Config}
    (posEmb : Option RotationTable) :
    ∀ (bs : List (SelfBlockP c))
      (x : Fin c.numLatents → Fin c.latentDim → ℝ),
    (∀ B ∈ bs, ZeroBlock B) →
    bs.foldl (fun xx B => apply_self_block ops B posEmb xx) x = x := by
  intro bs
  induction bs with
  | nil => intro x _; rfl
  | cons B bs ih =>
    intro x hz
    simp only [List.foldl_cons,
      apply_self_block_id ops B (hz B (by simp)) posEmb x]
    exact ih x fun B' hB' => hz B' (by simp [hB'])

theorem apply_layer_id (ops : TorchOps) {c : Config} (ly : LayerP c)
    (hly : ZeroLayer ly) (ctx : Fin c.numPos → Fin c.inputDim → ℝ)
    (mask : Option (Fin c.numPos → Bool)) (posEmb : Option RotationTable)
    (x : Fin c.numLatents → Fin c.latentDim → ℝ) :
    apply_layer ops ly ctx mask posEmb x = x := by
  obtain ⟨hca, hcf, hbl⟩ := hly
  have ha := attention_forward_zero ops ly.cAttn hca
    (fun n => layerNorm ly.cLn.g ly.cLn.b (x n))
    (fun n => layerNorm ly.cCtxLn.g ly.cCtxLn.b (ctx n)) mask none
  have hx1 : (fun n d =>
      prenorm_cross_attn ops ly.cLn ly.cCtxLn ly.cAttn x ctx mask n d
        + x n d) = x := by
    funext n d
    simp [prenorm_cross_attn, ha]
  have hx2 : (fun n d => prenorm_ff ops ly.cfLn ly.cff (x n) d + x n d) = x := by
    funext n d
    simp [prenorm_ff, feed_forward_zero ops ly.cff hcf]
  unfold apply_layer
  rw [hx1]
  show List.foldl (fun xx B => apply_self_block ops B posEmb xx)
      (fun n d => prenorm_ff ops ly.cfLn ly.cff (x n) d + x n d) ly.blocks = x
  rw [hx2]
  exact foldl_self_blocks_id ops posEmb ly.blocks x hbl

theorem apply_layers_id (ops : TorchOps) {c : Config} :
    ∀ (ls : List (LayerP c)) (ctx : Fin c.numPos → Fin c.inputDim → ℝ)
      (mask : Option (Fin c.numPos → Bool)) (posEmb : Option RotationTable)
      (x : Fin c.numLatents → Fin c.latentDim → ℝ),
    (∀ ly ∈ ls, ZeroLayer ly) →
    apply_layers ops ls ctx mask posEmb x = x := by
  intro ls
  induction ls with
  | nil => intro ctx mask posEmb x _; rfl
  | cons ly rest ih =>
    intro ctx mask posEmb x hz
    unfold apply_layers
    simp only [List.foldl_cons,
      apply_layer_id ops ly (hz ly (by simp)) ctx mask posEmb x]
    exact ih ctx mask posEmb x fun l hl => hz l (by simp [hl])

/-- C5: every sublayer application in `Perceiver.forward` is a residual
addition onto the running latent state (`x = sublayer(x) + x`, never a
replacement); consequently, when every sublayer's contribution is zero —
all projection parameters of every Attention and FeedForward zeroed — the
latent state after all depth groups equals the batch-broadcast initial
latent array (every batch row still holds `self.latents`). -/
theorem residual_skeleton (ops : TorchOps) {c : Config} (P : PerceiverP c)
    {b : ℕ} (data : Fin b → Fin c.numPos → Fin c.inputChannels → ℝ)
    (mask : Option (Fin b → Fin c.numPos → Bool))
    (h : ∀ ly ∈ P.layers, ZeroLayer ly) :
    ∀ i : Fin b,
      perceiver_latent_state ops P (data i) (mask.map fun m => m i) =
        P.latents := by
  intro i
  unfold perceiver_latent_state
  apply apply_layers_id ops P.layers (encodeRow c (data i))
    (mask.map fun m => m i) (forwardPosEmb c) P.latents h

theorem residual_skeleton_witness :
    perceiver_latent_state wOps wParams (fun _ _ => 0) none =
      wParams.latents := by
  have h : ∀ ly ∈ wParams.layers, ZeroLayer ly := by
    intro ly hly
    have : ly = wLayer := by simpa [wParams] using hly
    subst this
    exact ⟨⟨fun _ _ => rfl, fun _ _ => rfl, fun _ _ => rfl, fun _ => rfl⟩,
      ⟨fun _ _ => rfl, fun _ => rfl, fun _ _ => rfl, fun _ => rfl⟩,
      fun B hB => by
        have : B = wBlock := by simpa [wLayer] using hB
        subst this
        exact ⟨⟨fun _ _ => rfl, fun _ _ => rfl, fun _ _ => rfl, fun _ => rfl⟩,
          ⟨fun _ _ => rfl, fun _ => rfl, fun _ _ => rfl, fun _ => rfl⟩⟩⟩
  exact residual_skeleton wOps wParams (b := 1) (fun _ => fun _ _ => 0) none h 0

theorem softmax_sum_one {n : ℕ} (hn : 0 < n) (s : Fin n → ℝ) :
    ∑ j, softmax s j = 1 := by
  unfold softmax
  rw [← Finset.sum_div]
  apply div_self
  have hne : Nonempty (Fin n) := ⟨⟨0, hn⟩⟩
  have hpos : 0 < ∑ j, Real.exp (s j) :=
    Finset.sum_pos (fun j _ => Real.exp_pos _) Finset.univ_nonempty
  exact ne_of_gt hpos

theorem replicate_selfCall_filter (pe : Option RotationTable) :
    ∀ n, (List.replicate n (TraceEv.selfCall pe)).filter isMkTable = [] := by
  intro n
  induction n with
  | zero => rfl
  | succ m ih => simp [List.replicate_succ, List.filter_cons, isMkTable, ih]

theorem fold_trace_filter_mkTable {c : Config} (pe : Option RotationTable) :
    ∀ ls : List (LayerP c),
    (ls.foldr (fun ly acc => layerTrace pe ly.blocks.length ++ acc)
      []).filter isMkTable = [] := by
  intro ls
  induction ls with
  | nil => rfl
  | cons ly rest ih =>
    simp only [List.foldr_cons, List.filter_append, ih, List.append_nil]
    simp only [layerTrace, List.filter_cons, isMkTable, Bool.false_eq_true,
      if_false]
    exact replicate_selfCall_filter pe _

theorem fold_trace_mem {c : Config} (pe : Option RotationTable) :
    ∀ (ls : List (LayerP c)) (e : TraceEv),
    e ∈ ls.foldr (fun ly acc => layerTrace pe ly.blocks.length ++ acc) [] →
    e = TraceEv.crossCall none ∨ e = TraceEv.selfCall pe := by
  intro ls
  induction ls with
  | nil => intro e he; cases he
  | cons ly rest ih =>
    intro e he
    simp only [List.foldr_cons, List.mem_append] at he
    rcases he with he | he
    · simp only [layerTrace, List.mem_cons, List.mem_replicate] at he
      rcases he with he | ⟨-, he⟩
      · exact Or.inl he
      · exact Or.inr he
    · exact ih e he

/-- C6: when rotary relative position is enabled, exactly one rotation table
is computed per forward call — derived from `(num_latents,
latent_dim_head)` — and that same table is the `pos_emb` of every latent
self-attention invocation of the call, while every cross-attention
invocation receives none; and inside `Attention.forward` the table affects
the output only through the rotated query and key head arrays (the value
array is never rotated: rotations that agree on the query and key arrays
give identical outputs). -/
theorem rotary_threading {c : Config} (P : PerceiverP c)
    (hrel : c.selfAttnRelPos = true) :
    (perceiver_trace P).filter isMkTable =
      [TraceEv.mkTable (mkRotationTable c.numLatents c.latentDimHead)] ∧
    (∀ e ∈ perceiver_trace P, isSelfCall e = true →
      e = TraceEv.selfCall
        (some (mkRotationTable c.numLatents c.latentDimHead))) ∧
    (∀ e ∈ perceiver_trace P, isCrossCall e = true →
      e = TraceEv.crossCall none) ∧
    (∀ (ops : TorchOps) (qd cd hh dh nq nc : ℕ)
      (A : AttnParams qd cd hh dh) (x : Fin nq → Fin qd → ℝ)
      (ctx : Fin nc → Fin cd → ℝ) (mask : Option (Fin nc → Bool))
      (t1 t2 : RotationTable),
      (∀ hd, ops.rotary t1 nq dh (attnQ A x hd) =
        ops.rotary t2 nq dh (attnQ A x hd)) →
      (∀ hd, ops.rotary t1 nc dh (attnK A ctx hd) =
        ops.rotary t2 nc dh (attnK A ctx hd)) →
      attention_forward ops A x ctx mask (some t1) =
        attention_forward ops A x ctx mask (some t2)) := by
  have hpe : forwardPosEmb c =
      some (mkRotationTable c.numLatents c.latentDimHead) := by
    simp [forwardPosEmb, hrel]
  refine ⟨?_, ?_, ?_, ?_⟩
  · unfold perceiver_trace
    rw [List.filter_append, fold_trace_filter_mkTable]
    simp [hrel, isMkTable, List.filter_cons]
  · intro e he hself
    unfold perceiver_trace at he
    rw [List.mem_append] at he
    rcases he with he | he
    · rw [hrel] at he
      simp only [if_true, List.mem_singleton] at he
      subst he
      simp [isSelfCall] at hself
    · rcases fold_trace_mem (forwardPosEmb c) P.layers e he with h | h
      · subst h; simp [isSelfCall] at hself
      · subst h; rw [hpe]
  · intro e he hcross
    unfold perceiver_trace at he
    rw [List.mem_append] at he
    rcases he with he | he
    · rw [hrel] at he
      simp only [if_true, List.mem_singleton] at he
      subst he
      simp [isCrossCall] at hcross
    · rcases fold_trace_mem (forwardPosEmb c) P.layers e he with h | h
      · subst h; rfl
      · subst h; simp [isCrossCall] at hcross
  · intro ops qd cd hh dh nq nc A x ctx mask t1 t2 hq hk
    show attnCore A (fun hd => ops.rotary t1 nq dh (attnQ A x hd))
        (fun hd => ops.rotary t1 nc dh (attnK A ctx hd)) (attnV A ctx) mask =
      attnCore A (fun hd => ops.rotary t2 nq dh (attnQ A x hd))
        (fun hd => ops.rotary t2 nc dh (attnK A ctx hd)) (attnV A ctx) mask
    rw [funext hq, funext hk]

theorem rotary_threading_witness :
    (perceiver_trace wParams).filter isMkTable =
      [TraceEv.mkTable (mkRotationTable wCfg.numLatents wCfg.latentDimHead)] :=
  (rotary_threading wParams rfl).1

theorem apply_layers_st_spec (ops : TorchOps) {c : Config} {b : ℕ} :
    ∀ (ls : List (LayerP c))
      (ctx : Fin b → Fin c.numPos → Fin c.inputDim → ℝ)
      (mask : Option (Fin b → Fin c.numPos → Bool))
      (pe : Option RotationTable)
      (x : Fin b → Fin c.numLatents → Fin c.latentDim → ℝ),
    apply_layers_st ops ls ctx mask pe x =
      (ls, fun i =>
        apply_layers ops ls (ctx i) (mask.map fun m => m i) pe (x i)) := by
  intro ls
  induction ls with
  | nil => intro ctx mask pe x; rfl
  | cons ly rest ih =>
    intro ctx mask pe x
    simp only [apply_layers_st, ih]
    rfl

/-- C9: a forward call leaves all persistent model state unchanged — the
latent array and every attention/feed-forward/normalization parameter are
the same after the call as before (`forward` assigns to no module
attribute) — and the logits array is the only other output. -/
theorem forward_frame (ops : TorchOps) {c : Config} (P : PerceiverP c)
    {b : ℕ} (data : Fin b → Fin c.numPos → Fin c.inputChannels → ℝ)
    (mask : Option (Fin b → Fin c.numPos → Bool)) :
    (perceiver_forward_st ops P data mask).1 = P ∧
    (perceiver_forward_st ops P data mask).2 =
      perceiver_forward ops P data mask := by
  simp only [perceiver_forward_st]
  rw [apply_layers_st_spec]
  exact ⟨rfl, rfl⟩

/-- C10: batch noninterference — whenever two forward calls agree on the
input row and mask row of some batch positions, the returned logits agree
on those positions: output row `i` is a function of input row `i`, mask row
`i` and the model parameters only, independent of every other batch row. -/
theorem batch_noninterference (ops : TorchOps) {c : Config}
    (P : PerceiverP c) {b1 b2 : ℕ}
    (data1 : Fin b1 → Fin c.numPos → Fin c.inputChannels → ℝ)
    (data2 : Fin b2 → Fin c.numPos → Fin c.inputChannels → ℝ)
    (mask1 : Option (Fin b1 → Fin c.numPos → Bool))
    (mask2 : Option (Fin b2 → Fin c.numPos → Bool))
    (i1 : Fin b1) (i2 : Fin b2)
    (hdata : data1 i1 = data2 i2)
    (hmask : mask1.map (fun m => m i1) = mask2.map (fun m => m i2)) :
    perceiver_forward ops P data1 mask1 i1 =
      perceiver_forward ops P data2 mask2 i2 := by
  unfold perceiver_forward
  rw [hdata, hmask]

theorem batch_noninterference_witness :
    perceiver_forward wOps wParams
        (fun i _ _ => if i.val = 0 then 0 else 5) none (0 : Fin 2) =
      perceiver_forward wOps wParams (fun _ _ _ => 0) none (0 : Fin 1) :=
  batch_noninterference wOps wParams _ _ none none 0 0
    (by funext p ch; simp) rfl
